import Mathlib

/-!
Verification of the page-alignment and diff-report core of Py-PDF-Compare.

The model below is a shallow embedding of `align_pages` and the report
emission loop of `compare_visuals` from `src/pdf_compare/comparator.py`
(the copy in `src/python/comparator.py` has identical alignment logic),
together with the inline bounding-box arithmetic used when projecting
word boxes into the output layout.

The similarity scorer used by the source is `difflib.SequenceMatcher(...)
.ratio()` from the Python standard library, whose implementation is not
part of this repository.  It is modelled from the spec (§4.1): a
Ratcliff-Obershelp ratio — longest contiguous common block, leftmost of
the longest, recursing on the two remainders, with
`ratio = 2 * matches / (len a + len b)` and `1` when both are empty.

Machine floats of the source are modelled as exact rationals, and the
unbounded loops are given explicit fuel `len a + len b + 1`; fuel
sufficiency is proved (`alignLoopF_fuel_stable`).
-/

namespace PyPdfCompare

/-- Length of the longest common prefix of two token lists. -/
def commonPrefixLen {β : Type} [DecidableEq β] : List β → List β → ℕ
  | x :: xs, y :: ys => if x = y then commonPrefixLen xs ys + 1 else 0
  | _, _ => 0

/-- Length of the matching run of tokens starting at position `i` of `a`
and `j` of `b`. -/
def matchLenAt {β : Type} [DecidableEq β] (a b : List β) (i j : ℕ) : ℕ :=
  commonPrefixLen (a.drop i) (b.drop j)

/-- All candidate block start positions `(i, j)`, in lexicographic order
(`i` major, `j` minor). -/
def candidatePositions (la lb : ℕ) : List (ℕ × ℕ) :=
  (List.range la).flatMap (fun i => (List.range lb).map (fun j => (i, j)))

/-- Modelled from the spec: the scorer's "longest contiguous common
subsequence block" with the classic Ratcliff-Obershelp tie-break,
"leftmost of the longest" (earliest start in `a`, then earliest start in
`b`).  Returns `(i, j, size)`.  The concrete scorer of the source is the
external `difflib.SequenceMatcher.find_longest_match`, which is not part
of this repository. -/
def findLongestMatch {β : Type} [DecidableEq β] (a b : List β) : ℕ × ℕ × ℕ :=
  (candidatePositions a.length b.length).foldl
    (fun best c =>
      if best.2.2 < matchLenAt a b c.1 c.2 then (c.1, c.2, matchLenAt a b c.1 c.2)
      else best)
    (0, 0, 0)

/-- Modelled from the spec: total number of matched tokens — the longest
common block, recursively on the left and right remainders.  `fuel`
bounds the recursion depth; `matchTotal` supplies enough. -/
def matchTotalF {β : Type} [DecidableEq β] : ℕ → List β → List β → ℕ
  | 0, _, _ => 0
  | fuel + 1, a, b =>
    if (findLongestMatch a b).2.2 = 0 then 0
    else
      (findLongestMatch a b).2.2
        + matchTotalF fuel (a.take (findLongestMatch a b).1)
            (b.take (findLongestMatch a b).2.1)
        + matchTotalF fuel (a.drop ((findLongestMatch a b).1 + (findLongestMatch a b).2.2))
            (b.drop ((findLongestMatch a b).2.1 + (findLongestMatch a b).2.2))

/-- Total matched token count between `a` and `b`. -/
def matchTotal {β : Type} [DecidableEq β] (a b : List β) : ℕ :=
  matchTotalF (a.length + b.length + 1) a b

/-- Modelled from the spec: `ratio = 2 * matched_token_count /
(len(a) + len(b))`, and `1.0` for two empty sequences.  The quotient is
built with `mkRat` (integer numerator over natural denominator), which
equals the field quotient `2 * matches / (len a + len b)` — see
`similarity_eq_div`. -/
def similarity {β : Type} [DecidableEq β] (a b : List β) : ℚ :=
  if a.length + b.length = 0 then 1
  else mkRat (2 * (matchTotal a b : ℤ)) (a.length + b.length)

/-- `SIMILARITY_THRESHOLD = 0.6` from `align_pages`
(src/pdf_compare/comparator.py line 49), as the exact rational `6/10` —
see `SIMILARITY_THRESHOLD_eq`. -/
def SIMILARITY_THRESHOLD : ℚ := mkRat 6 10

/-- `LOOKAHEAD_WINDOW = 3` from `align_pages`
(src/pdf_compare/comparator.py line 50). -/
def LOOKAHEAD_WINDOW : ℕ := 3

/-- Alignment operation tags, the `tag` strings of the source tuples. -/
inductive Tag where
  | equal
  | replace
  | insert
  | delete
deriving DecidableEq

/-- One alignment operation `(tag, i1, i2, j1, j2)`: `a_range = [i1, i2)`,
`b_range = [j1, j2)`. -/
structure AlignOp where
  tag : Tag
  i1 : ℕ
  i2 : ℕ
  j1 : ℕ
  j2 : ℕ
deriving DecidableEq

/-- The `type` field of the source's `best_match` dictionary. -/
inductive BType where
  | equal
  | insert
  | delete
deriving DecidableEq

/-- The source's `best_match` dictionary: `{'type', 'i', 'j', 'similarity'}`
(the redundant `'skip'` entry is never read and is omitted). -/
structure Best where
  btype : BType
  bi : ℕ
  bj : ℕ
  sim : ℚ
deriving DecidableEq

/-- The lookahead offsets `range(1, min(LOOKAHEAD_WINDOW, len - cursor))`
probed by `align_pages` (lines 67 and 72): Python `range` excludes its
upper end, so these are `1, …, min(3, len - cursor) - 1`. -/
def probedOffsets (cursor len : ℕ) : List ℕ :=
  List.range' 1 (min LOOKAHEAD_WINDOW (len - cursor) - 1)

/-- One iteration of the first lookahead loop (line 67): probe
`ratio(text_a[i], text_b[j + k])` and track it as an `insert` candidate if
it strictly exceeds both the best similarity so far and the threshold. -/
def probeJ {α : Type} [Inhabited α] (r : α → α → ℚ) (ta tb : List α)
    (i j : ℕ) (b : Best) (k : ℕ) : Best :=
  if r (ta.getD i default) (tb.getD (j + k) default) > b.sim ∧
      r (ta.getD i default) (tb.getD (j + k) default) > SIMILARITY_THRESHOLD then
    ⟨.insert, i, j + k, r (ta.getD i default) (tb.getD (j + k) default)⟩
  else b

/-- The first lookahead loop of `align_pages` (lines 67-70). -/
def lookJ {α : Type} [Inhabited α] (r : α → α → ℚ) (ta tb : List α)
    (i j : ℕ) (b : Best) : Best :=
  (probedOffsets j tb.length).foldl (probeJ r ta tb i j) b

/-- One iteration of the second lookahead loop (line 72): probe
`ratio(text_a[i + k], text_b[j])` and track it as a `delete` candidate if
it strictly exceeds both the best similarity so far and the threshold. -/
def probeI {α : Type} [Inhabited α] (r : α → α → ℚ) (ta tb : List α)
    (i j : ℕ) (b : Best) (k : ℕ) : Best :=
  if r (ta.getD (i + k) default) (tb.getD j default) > b.sim ∧
      r (ta.getD (i + k) default) (tb.getD j default) > SIMILARITY_THRESHOLD then
    ⟨.delete, i + k, j, r (ta.getD (i + k) default) (tb.getD j default)⟩
  else b

/-- The second lookahead loop of `align_pages` (lines 72-75). -/
def lookI {α : Type} [Inhabited α] (r : α → α → ℚ) (ta tb : List α)
    (i j : ℕ) (b : Best) : Best :=
  (probedOffsets i ta.length).foldl (probeI r ta tb i j) b

/-- The `best_match` value after both lookahead loops, starting from the
initial `{'type': 'equal', 'i': i, 'j': j, 'similarity': current}`. -/
def bestMatch {α : Type} [Inhabited α] (r : α → α → ℚ) (ta tb : List α)
    (i j : ℕ) : Best :=
  lookI r ta tb i j
    (lookJ r ta tb i j ⟨.equal, i, j, r (ta.getD i default) (tb.getD j default)⟩)

/-- The `while i < len_a or j < len_b` loop of `align_pages`
(lines 55-91), parameterized by the page-similarity function `r`
(`difflib.SequenceMatcher(None, ·, ·).ratio()` in the source).  `fuel`
bounds the number of iterations; `alignPages` supplies enough
(`alignLoopF_fuel_stable` proves any fuel above the loop's measure gives
the same result). -/
def alignLoopF {α : Type} [Inhabited α] (r : α → α → ℚ) (ta tb : List α) :
    ℕ → ℕ → ℕ → List AlignOp
  | 0, _, _ => []
  | fuel + 1, i, j =>
    if i < ta.length ∨ j < tb.length then
      if ta.length ≤ i then [⟨.insert, i, i, j, tb.length⟩]
      else if tb.length ≤ j then [⟨.delete, i, ta.length, j, j⟩]
      else
        if (bestMatch r ta tb i j).btype = .insert then
          ⟨.insert, i, i, j, (bestMatch r ta tb i j).bj⟩
            :: alignLoopF r ta tb fuel i (bestMatch r ta tb i j).bj
        else if (bestMatch r ta tb i j).btype = .delete then
          ⟨.delete, i, (bestMatch r ta tb i j).bi, j, j⟩
            :: alignLoopF r ta tb fuel (bestMatch r ta tb i j).bi j
        else if r (ta.getD i default) (tb.getD j default) > SIMILARITY_THRESHOLD then
          ⟨.equal, i, i + 1, j, j + 1⟩ :: alignLoopF r ta tb fuel (i + 1) (j + 1)
        else
          ⟨.replace, i, i + 1, j, j + 1⟩ :: alignLoopF r ta tb fuel (i + 1) (j + 1)
    else []

/-- `align_pages(text_a, text_b)`: run the alignment loop from `(0, 0)`. -/
def alignPages {α : Type} [Inhabited α] (r : α → α → ℚ) (ta tb : List α) :
    List AlignOp :=
  alignLoopF r ta tb (ta.length + tb.length + 1) 0 0

/-- One emitted report entry of `compare_visuals`: a side-by-side
comparison page for a resolved pair (`_add_comparison_page`, which marks
the pair shifted when `idx_a != idx_b`, line 240), or a singleton page
that exists only in A (`'left'`/`'Missing'`) or only in B
(`'right'`/`'Added'`). -/
inductive PageResult where
  | pair (idxA idxB : ℕ) (shifted : Bool)
  | onlyA (idx : ℕ)
  | onlyB (idx : ℕ)
deriving DecidableEq

/-- The report entries emitted for one alignment operation by the
`for tag, i1, i2, j1, j2 in opcodes` body of `compare_visuals`
(src/pdf_compare/comparator.py lines 118-144). -/
def opResults (op : AlignOp) : List PageResult :=
  match op.tag with
  | .equal | .replace =>
    (List.range (max (op.i2 - op.i1) (op.j2 - op.j1))).flatMap fun k =>
      match (if op.i1 + k < op.i2 then some (op.i1 + k) else none),
          (if op.j1 + k < op.j2 then some (op.j1 + k) else none) with
      | some a, some b => [.pair a b (decide (a ≠ b))]
      | none, some b => [.onlyB b]
      | some a, none => [.onlyA a]
      | none, none => []
  | .delete => (List.range' op.i1 (op.i2 - op.i1)).map .onlyA
  | .insert => (List.range' op.j1 (op.j2 - op.j1)).map .onlyB

/-- All report entries, in `AlignmentPlan` order. -/
def planResults (ops : List AlignOp) : List PageResult :=
  ops.flatMap opResults

/-- An axis-aligned bounding box `(x0, y0, x1, y1)`. -/
structure BBox where
  x0 : ℚ
  y0 : ℚ
  x1 : ℚ
  y1 : ℚ
deriving DecidableEq

/-- The coordinate mapping applied to every highlighted word box: each
corner is sent independently to `x * scale + offset`.  This is the inline
arithmetic of the source: `w['x0']*scale_x_b + width_a`,
`w['top']*scale_y_b`, … in src/python/comparator.py lines 326 and 330,
and the pure translation (`scale = 1`) `bbox.x0 + margin`,
`bbox.y0 + margin + label_height`, … in src/pdf_compare/comparator.py
lines 218-236. -/
def mapBBox (b : BBox) (sx sy ox oy : ℚ) : BBox :=
  ⟨b.x0 * sx + ox, b.y0 * sy + oy, b.x1 * sx + ox, b.y1 * sy + oy⟩

/-- `covers lo hi rs`: the ranges `rs` are contiguous and increasing and
cover `[lo, hi)` exactly once — each range starts where the previous one
ended, starts at `lo`, and the last one ends at `hi`. -/
def covers (lo hi : ℕ) : List (ℕ × ℕ) → Prop
  | [] => lo = hi
  | (s, e) :: rest => s = lo ∧ lo ≤ e ∧ covers e hi rest

/-- The `a_range`s of a plan, in emission order. -/
def aRanges (ops : List AlignOp) : List (ℕ × ℕ) :=
  ops.map fun op => (op.i1, op.i2)

/-- The `b_range`s of a plan, in emission order. -/
def bRanges (ops : List AlignOp) : List (ℕ × ℕ) :=
  ops.map fun op => (op.j1, op.j2)

/-! ## Helper lemmas -/

theorem similarity_eq_div {β : Type} [DecidableEq β] (a b : List β) :
    similarity a b =
      if a.length + b.length = 0 then 1
      else 2 * (matchTotal a b : ℚ) / ((a.length : ℚ) + (b.length : ℚ)) := by
  unfold similarity
  split
  · rfl
  · rw [Rat.mkRat_eq_div]
    push_cast
    ring

theorem SIMILARITY_THRESHOLD_eq : SIMILARITY_THRESHOLD = 6 / 10 := by
  unfold SIMILARITY_THRESHOLD
  rw [Rat.mkRat_eq_div]
  norm_num

theorem foldl_inv {β γ : Type} (P : β → Prop) (f : β → γ → β) :
    ∀ (l : List γ) (b : β), P b → (∀ c x, x ∈ l → P c → P (f c x)) →
      P (l.foldl f b) := by
  intro l
  induction l with
  | nil => intro b hb _; exact hb
  | cons x xs ih =>
    intro b hb h
    exact ih (f b x) (h b x (by simp) hb)
      (fun c y hy hc => h c y (by simp [hy]) hc)

theorem commonPrefixLen_le_left {β : Type} [DecidableEq β] :
    ∀ (a b : List β), commonPrefixLen a b ≤ a.length := by
  intro a
  induction a with
  | nil => intro b; cases b <;> simp [commonPrefixLen]
  | cons x xs ih =>
    intro b
    cases b with
    | nil => simp [commonPrefixLen]
    | cons y ys =>
      simp only [commonPrefixLen, List.length_cons]
      split
      · exact Nat.succ_le_succ (ih ys)
      · exact Nat.zero_le _

theorem commonPrefixLen_le_right {β : Type} [DecidableEq β] :
    ∀ (a b : List β), commonPrefixLen a b ≤ b.length := by
  intro a
  induction a with
  | nil => intro b; cases b <;> simp [commonPrefixLen]
  | cons x xs ih =>
    intro b
    cases b with
    | nil => simp [commonPrefixLen]
    | cons y ys =>
      simp only [commonPrefixLen, List.length_cons]
      split
      · exact Nat.succ_le_succ (ih ys)
      · exact Nat.zero_le _

theorem commonPrefixLen_self {β : Type} [DecidableEq β] :
    ∀ (a : List β), commonPrefixLen a a = a.length := by
  intro a
  induction a with
  | nil => simp [commonPrefixLen]
  | cons x xs ih => simp [commonPrefixLen, ih]

theorem candidatePositions_mem {la lb : ℕ} {c : ℕ × ℕ}
    (h : c ∈ candidatePositions la lb) : c.1 < la ∧ c.2 < lb := by
  simp only [candidatePositions, List.mem_flatMap, List.mem_map,
    List.mem_range] at h
  obtain ⟨i, hi, j, hj, hc⟩ := h
  rw [← hc]
  exact ⟨hi, hj⟩

theorem mem_candidatePositions {la lb i j : ℕ} (hi : i < la) (hj : j < lb) :
    (i, j) ∈ candidatePositions la lb := by
  simp only [candidatePositions, List.mem_flatMap, List.mem_map,
    List.mem_range]
  exact ⟨i, hi, j, hj, rfl⟩

theorem findLongestMatch_bounds {β : Type} [DecidableEq β] (a b : List β) :
    (findLongestMatch a b).1 + (findLongestMatch a b).2.2 ≤ a.length ∧
    (findLongestMatch a b).2.1 + (findLongestMatch a b).2.2 ≤ b.length := by
  unfold findLongestMatch
  apply foldl_inv
    (P := fun t : ℕ × ℕ × ℕ => t.1 + t.2.2 ≤ a.length ∧ t.2.1 + t.2.2 ≤ b.length)
  · simp
  · intro c x hx hc
    split
    · have hm := candidatePositions_mem hx
      have h1 := commonPrefixLen_le_left (a.drop x.1) (b.drop x.2)
      have h2 := commonPrefixLen_le_right (a.drop x.1) (b.drop x.2)
      simp only [matchLenAt, List.length_drop] at h1 h2 ⊢
      omega
    · exact hc

theorem findLongestMatch_ge {β : Type} [DecidableEq β] (a b : List β)
    {i j : ℕ} (hi : i < a.length) (hj : j < b.length) :
    matchLenAt a b i j ≤ (findLongestMatch a b).2.2 := by
  unfold findLongestMatch
  obtain ⟨l1, l2, hl⟩ := List.append_of_mem (mem_candidatePositions hi hj)
  rw [hl, List.foldl_append, List.foldl_cons]
  apply foldl_inv (P := fun t : ℕ × ℕ × ℕ => matchLenAt a b i j ≤ t.2.2)
  · dsimp only
    split
    · rename_i hlt
      exact le_refl _
    · rename_i hlt
      simp only [not_lt] at hlt
      exact hlt
  · intro c x _ hc
    dsimp only
    split
    · rename_i hlt
      dsimp only
      omega
    · exact hc

theorem findLongestMatch_self {β : Type} [DecidableEq β] (a : List β) :
    findLongestMatch a a = (0, 0, a.length) := by
  cases ha : a with
  | nil => rfl
  | cons x xs =>
    have hlen : 0 < a.length := by rw [ha]; simp
    have hge : a.length ≤ (findLongestMatch a a).2.2 := by
      have := findLongestMatch_ge a a hlen hlen
      simpa [matchLenAt, commonPrefixLen_self] using this
    have hb := findLongestMatch_bounds a a
    rw [← ha]
    set m := findLongestMatch a a with hm
    obtain ⟨u, v, w⟩ := m
    simp only at hge hb ⊢
    have h0 : u = 0 ∧ v = 0 ∧ w = a.length := by omega
    simp [h0.1, h0.2.1, h0.2.2]

theorem matchTotalF_nil {β : Type} [DecidableEq β] :
    ∀ (f : ℕ), matchTotalF f ([] : List β) [] = 0 := by
  intro f
  cases f with
  | zero => rfl
  | succ n => rfl

theorem matchTotalF_le {β : Type} [DecidableEq β] :
    ∀ (f : ℕ) (a b : List β), matchTotalF f a b ≤ min a.length b.length := by
  intro f
  induction f with
  | zero => intro a b; simp [matchTotalF]
  | succ n ih =>
    intro a b
    simp only [matchTotalF]
    split
    · exact Nat.zero_le _
    · have hb := findLongestMatch_bounds a b
      have h1 := ih (a.take (findLongestMatch a b).1) (b.take (findLongestMatch a b).2.1)
      have h2 := ih (a.drop ((findLongestMatch a b).1 + (findLongestMatch a b).2.2))
        (b.drop ((findLongestMatch a b).2.1 + (findLongestMatch a b).2.2))
      simp only [List.length_take, List.length_drop] at h1 h2
      omega

theorem matchTotal_le {β : Type} [DecidableEq β] (a b : List β) :
    matchTotal a b ≤ min a.length b.length :=
  matchTotalF_le _ a b

theorem matchTotal_self {β : Type} [DecidableEq β] (a : List β) :
    matchTotal a a = a.length := by
  unfold matchTotal
  simp only [matchTotalF, findLongestMatch_self]
  split
  · omega
  · simp only [List.take_zero, Nat.zero_add, List.drop_length, matchTotalF_nil]
    omega

theorem similarity_nonneg {β : Type} [DecidableEq β] (a b : List β) :
    0 ≤ similarity a b := by
  rw [similarity_eq_div]
  split
  · norm_num
  · have h1 : (0 : ℚ) ≤ 2 * (matchTotal a b : ℚ) :=
      mul_nonneg (by norm_num) (Nat.cast_nonneg _)
    have h2 : (0 : ℚ) ≤ (a.length : ℚ) + (b.length : ℚ) :=
      add_nonneg (Nat.cast_nonneg _) (Nat.cast_nonneg _)
    exact div_nonneg h1 h2

theorem similarity_le_one {β : Type} [DecidableEq β] (a b : List β) :
    similarity a b ≤ 1 := by
  rw [similarity_eq_div]
  split
  · norm_num
  · rename_i h
    have hpos : (0 : ℚ) < (a.length : ℚ) + (b.length : ℚ) := by
      have hn : 0 < a.length + b.length := Nat.pos_of_ne_zero h
      exact_mod_cast hn
    rw [div_le_one hpos]
    have := matchTotal_le a b
    have h2 : 2 * matchTotal a b ≤ a.length + b.length := by omega
    exact_mod_cast h2

theorem similarity_self {β : Type} [DecidableEq β] (a : List β) :
    similarity a a = 1 := by
  rw [similarity_eq_div]
  split
  · rfl
  · rename_i h
    rw [matchTotal_self]
    have hla : 0 < a.length := by omega
    have hpos : (0 : ℚ) < (a.length : ℚ) + a.length := by
      have : (0 : ℚ) < (a.length : ℚ) := by exact_mod_cast hla
      linarith
    field_simp
    ring

theorem probedOffsets_iff {cursor len k : ℕ} :
    k ∈ probedOffsets cursor len ↔
      1 ≤ k ∧ k < min LOOKAHEAD_WINDOW (len - cursor) := by
  unfold probedOffsets LOOKAHEAD_WINDOW
  rw [List.mem_range'_1]
  omega

theorem probedOffsets_bounds {cursor len k : ℕ}
    (h : k ∈ probedOffsets cursor len) : 1 ≤ k ∧ cursor + k < len := by
  have h2 := probedOffsets_iff.mp h
  omega

theorem bestMatch_bounds {α : Type} [Inhabited α] (r : α → α → ℚ)
    (ta tb : List α) (i j : ℕ) :
    ((bestMatch r ta tb i j).btype = .insert →
      j < (bestMatch r ta tb i j).bj ∧ (bestMatch r ta tb i j).bj < tb.length) ∧
    ((bestMatch r ta tb i j).btype = .delete →
      i < (bestMatch r ta tb i j).bi ∧ (bestMatch r ta tb i j).bi < ta.length) := by
  unfold bestMatch lookI lookJ
  apply foldl_inv (P := fun b : Best =>
    (b.btype = .insert → j < b.bj ∧ b.bj < tb.length) ∧
    (b.btype = .delete → i < b.bi ∧ b.bi < ta.length))
  · apply foldl_inv (P := fun b : Best =>
      (b.btype = .insert → j < b.bj ∧ b.bj < tb.length) ∧
      (b.btype = .delete → i < b.bi ∧ b.bi < ta.length))
    · constructor <;> · intro h; simp at h
    · intro c x hx hc
      unfold probeJ
      split
      · have hb := probedOffsets_bounds hx
        constructor
        · intro _; dsimp only; omega
        · intro h; simp at h
      · exact hc
  · intro c x hx hc
    unfold probeI
    split
    · have hb := probedOffsets_bounds hx
      constructor
      · intro h; simp at h
      · intro _; dsimp only; omega
    · exact hc

theorem aRanges_nil : aRanges [] = [] := rfl

theorem aRanges_cons (op : AlignOp) (ops : List AlignOp) :
    aRanges (op :: ops) = (op.i1, op.i2) :: aRanges ops := rfl

theorem bRanges_nil : bRanges [] = [] := rfl

theorem bRanges_cons (op : AlignOp) (ops : List AlignOp) :
    bRanges (op :: ops) = (op.j1, op.j2) :: bRanges ops := rfl

theorem covers_nil_iff (lo hi : ℕ) : covers lo hi [] ↔ lo = hi := Iff.rfl

theorem covers_cons_iff (lo hi s e : ℕ) (rest : List (ℕ × ℕ)) :
    covers lo hi ((s, e) :: rest) ↔ s = lo ∧ lo ≤ e ∧ covers e hi rest :=
  Iff.rfl

theorem alignLoopF_covers {α : Type} [Inhabited α] (r : α → α → ℚ)
    (ta tb : List α) :
    ∀ (fuel i j : ℕ), ta.length - i + (tb.length - j) < fuel →
      i ≤ ta.length → j ≤ tb.length →
      covers i ta.length (aRanges (alignLoopF r ta tb fuel i j)) ∧
      covers j tb.length (bRanges (alignLoopF r ta tb fuel i j)) := by
  intro fuel
  induction fuel with
  | zero => intro i j hm _ _; exact absurd hm (Nat.not_lt_zero _)
  | succ n ih =>
    intro i j hm hi hj
    simp only [alignLoopF]
    by_cases hcond : i < ta.length ∨ j < tb.length
    · rw [if_pos hcond]
      by_cases hia : ta.length ≤ i
      · rw [if_pos hia]
        exact ⟨⟨rfl, le_refl _, show i = ta.length by omega⟩, ⟨rfl, hj, rfl⟩⟩
      · rw [if_neg hia]
        by_cases hjb : tb.length ≤ j
        · rw [if_pos hjb]
          exact ⟨⟨rfl, hi, rfl⟩, ⟨rfl, le_refl _, show j = tb.length by omega⟩⟩
        · rw [if_neg hjb]
          push_neg at hia hjb
          by_cases hbi : (bestMatch r ta tb i j).btype = .insert
          · rw [if_pos hbi]
            have hbnd := (bestMatch_bounds r ta tb i j).1 hbi
            have hrec := ih i (bestMatch r ta tb i j).bj (by omega) hi (by omega)
            exact ⟨⟨rfl, le_refl _, hrec.1⟩,
              ⟨rfl, show j ≤ (bestMatch r ta tb i j).bj by omega, hrec.2⟩⟩
          · rw [if_neg hbi]
            by_cases hbd : (bestMatch r ta tb i j).btype = .delete
            · rw [if_pos hbd]
              have hbnd := (bestMatch_bounds r ta tb i j).2 hbd
              have hrec := ih (bestMatch r ta tb i j).bi j (by omega) (by omega) hj
              exact ⟨⟨rfl, show i ≤ (bestMatch r ta tb i j).bi by omega, hrec.1⟩,
                ⟨rfl, le_refl _, hrec.2⟩⟩
            · rw [if_neg hbd]
              have hrec := ih (i + 1) (j + 1) (by omega) (by omega) (by omega)
              by_cases hthr :
                  r (ta.getD i default) (tb.getD j default) > SIMILARITY_THRESHOLD
              · rw [if_pos hthr]
                exact ⟨⟨rfl, show i ≤ i + 1 by omega, hrec.1⟩,
                  ⟨rfl, show j ≤ j + 1 by omega, hrec.2⟩⟩
              · rw [if_neg hthr]
                exact ⟨⟨rfl, show i ≤ i + 1 by omega, hrec.1⟩,
                  ⟨rfl, show j ≤ j + 1 by omega, hrec.2⟩⟩
    · rw [if_neg hcond]
      push_neg at hcond
      exact ⟨show i = ta.length by omega, show j = tb.length by omega⟩

theorem alignLoopF_length {α : Type} [Inhabited α] (r : α → α → ℚ)
    (ta tb : List α) :
    ∀ (fuel i j : ℕ), ta.length - i + (tb.length - j) < fuel →
      (alignLoopF r ta tb fuel i j).length ≤
        ta.length - i + (tb.length - j) := by
  intro fuel
  induction fuel with
  | zero => intro i j hm; exact absurd hm (Nat.not_lt_zero _)
  | succ n ih =>
    intro i j hm
    simp only [alignLoopF]
    by_cases hcond : i < ta.length ∨ j < tb.length
    · rw [if_pos hcond]
      by_cases hia : ta.length ≤ i
      · rw [if_pos hia]
        simp only [List.length_cons, List.length_nil]
        omega
      · rw [if_neg hia]
        by_cases hjb : tb.length ≤ j
        · rw [if_pos hjb]
          simp only [List.length_cons, List.length_nil]
          omega
        · rw [if_neg hjb]
          push_neg at hia hjb
          by_cases hbi : (bestMatch r ta tb i j).btype = .insert
          · rw [if_pos hbi]
            have hbnd := (bestMatch_bounds r ta tb i j).1 hbi
            have hrec := ih i (bestMatch r ta tb i j).bj (by omega)
            simp only [List.length_cons]
            omega
          · rw [if_neg hbi]
            by_cases hbd : (bestMatch r ta tb i j).btype = .delete
            · rw [if_pos hbd]
              have hbnd := (bestMatch_bounds r ta tb i j).2 hbd
              have hrec := ih (bestMatch r ta tb i j).bi j (by omega)
              simp only [List.length_cons]
              omega
            · rw [if_neg hbd]
              have hrec := ih (i + 1) (j + 1) (by omega)
              by_cases hthr :
                  r (ta.getD i default) (tb.getD j default) > SIMILARITY_THRESHOLD
              · rw [if_pos hthr]
                simp only [List.length_cons]
                omega
              · rw [if_neg hthr]
                simp only [List.length_cons]
                omega
    · rw [if_neg hcond]
      simp

theorem alignLoopF_fuel_stable {α : Type} [Inhabited α] (r : α → α → ℚ)
    (ta tb : List α) :
    ∀ (f1 f2 i j : ℕ), ta.length - i + (tb.length - j) < f1 →
      ta.length - i + (tb.length - j) < f2 →
      alignLoopF r ta tb f1 i j = alignLoopF r ta tb f2 i j := by
  intro f1
  induction f1 with
  | zero => intro f2 i j hm _; exact absurd hm (Nat.not_lt_zero _)
  | succ n ih =>
    intro f2 i j hm1 hm2
    cases f2 with
    | zero => exact absurd hm2 (Nat.not_lt_zero _)
    | succ m =>
      simp only [alignLoopF]
      by_cases hcond : i < ta.length ∨ j < tb.length
      · rw [if_pos hcond, if_pos hcond]
        by_cases hia : ta.length ≤ i
        · rw [if_pos hia, if_pos hia]
        · rw [if_neg hia, if_neg hia]
          by_cases hjb : tb.length ≤ j
          · rw [if_pos hjb, if_pos hjb]
          · rw [if_neg hjb, if_neg hjb]
            push_neg at hia hjb
            by_cases hbi : (bestMatch r ta tb i j).btype = .insert
            · rw [if_pos hbi, if_pos hbi]
              have hbnd := (bestMatch_bounds r ta tb i j).1 hbi
              rw [ih m i (bestMatch r ta tb i j).bj (by omega) (by omega)]
            · rw [if_neg hbi, if_neg hbi]
              by_cases hbd : (bestMatch r ta tb i j).btype = .delete
              · rw [if_pos hbd, if_pos hbd]
                have hbnd := (bestMatch_bounds r ta tb i j).2 hbd
                rw [ih m (bestMatch r ta tb i j).bi j (by omega) (by omega)]
              · rw [if_neg hbd, if_neg hbd]
                by_cases hthr :
                    r (ta.getD i default) (tb.getD j default) > SIMILARITY_THRESHOLD
                · rw [if_pos hthr, if_pos hthr]
                  rw [ih m (i + 1) (j + 1) (by omega) (by omega)]
                · rw [if_neg hthr, if_neg hthr]
                  rw [ih m (i + 1) (j + 1) (by omega) (by omega)]
      · rw [if_neg hcond, if_neg hcond]

theorem covers_start_le :
    ∀ (l : List (ℕ × ℕ)) (lo hi : ℕ), covers lo hi l → ∀ p ∈ l, lo ≤ p.1 := by
  intro l
  induction l with
  | nil => intro lo hi _ p hp; exact absurd hp (List.not_mem_nil p)
  | cons y rest ih =>
    intro lo hi hc p hp
    obtain ⟨s, e⟩ := y
    rw [covers_cons_iff] at hc
    obtain ⟨hs, hle, hrest⟩ := hc
    rcases List.mem_cons.mp hp with h | h
    · rw [h]; omega
    · have := ih e hi hrest p h
      omega

theorem covers_countP :
    ∀ (l : List (ℕ × ℕ)) (lo hi x : ℕ), covers lo hi l → lo ≤ x → x < hi →
      l.countP (fun p => decide (p.1 ≤ x ∧ x < p.2)) = 1 := by
  intro l
  induction l with
  | nil =>
    intro lo hi x hc hlo hhi
    have heq : lo = hi := hc
    simp only [List.countP_nil]
    omega
  | cons y rest ih =>
    intro lo hi x hc hlo hhi
    obtain ⟨s, e⟩ := y
    rw [covers_cons_iff] at hc
    obtain ⟨hs, hle, hrest⟩ := hc
    rw [List.countP_cons]
    by_cases hx : x < e
    · have hz : rest.countP (fun p => decide (p.1 ≤ x ∧ x < p.2)) = 0 := by
        rw [List.countP_eq_zero]
        intro p hp
        have := covers_start_le rest e hi hrest p hp
        simp only [decide_eq_true_eq]
        omega
      rw [hz]
      simp only [decide_eq_true_eq]
      rw [if_pos ⟨by omega, hx⟩]
    · have h1 := ih e hi x hrest (by omega) hhi
      rw [h1]
      simp only [decide_eq_true_eq]
      rw [if_neg (by omega)]

theorem lookI_keep {α : Type} [Inhabited α] (r : α → α → ℚ) (ta tb : List α)
    (i j : ℕ) (b : Best)
    (h : ∀ k ∈ probedOffsets i ta.length,
      ¬(r (ta.getD (i + k) default) (tb.getD j default) > b.sim ∧
        r (ta.getD (i + k) default) (tb.getD j default) > SIMILARITY_THRESHOLD)) :
    lookI r ta tb i j b = b := by
  unfold lookI
  apply foldl_inv (P := fun c => c = b)
  · rfl
  · intro c x hx hc
    subst hc
    unfold probeI
    rw [if_neg (h x hx)]

theorem lookI_delete_of_probe {α : Type} [Inhabited α] (r : α → α → ℚ)
    (ta tb : List α) (i j : ℕ) (b : Best)
    (h : ∃ k ∈ probedOffsets i ta.length,
      r (ta.getD (i + k) default) (tb.getD j default) > b.sim ∧
      r (ta.getD (i + k) default) (tb.getD j default) > SIMILARITY_THRESHOLD) :
    (lookI r ta tb i j b).btype = .delete := by
  obtain ⟨k, hk, hcond⟩ := h
  obtain ⟨l1, l2, hl⟩ := List.append_of_mem hk
  unfold lookI
  rw [hl, List.foldl_append, List.foldl_cons]
  have hmid : (List.foldl (probeI r ta tb i j) b l1).btype = .delete ∨
      List.foldl (probeI r ta tb i j) b l1 = b := by
    apply foldl_inv (P := fun c => c.btype = .delete ∨ c = b)
    · exact Or.inr rfl
    · intro c x _ hc
      unfold probeI
      split
      · exact Or.inl rfl
      · exact hc
  have hdel : (probeI r ta tb i j (List.foldl (probeI r ta tb i j) b l1) k).btype
      = .delete := by
    rcases hmid with hd | hb
    · unfold probeI
      split
      · rfl
      · exact hd
    · rw [hb]
      unfold probeI
      rw [if_pos hcond]
  apply foldl_inv (P := fun c : Best => c.btype = .delete)
  · exact hdel
  · intro c x _ hc
    unfold probeI
    split
    · rfl
    · exact hc

theorem flatMap_singleton_eq_map {γ δ : Type} :
    ∀ (l : List γ) (f : γ → List δ) (g : γ → δ),
      (∀ x ∈ l, f x = [g x]) → l.flatMap f = l.map g := by
  intro l
  induction l with
  | nil => intro f g _; rfl
  | cons x xs ih =>
    intro f g h
    rw [List.flatMap_cons, List.map_cons, h x (by simp),
      ih f g (fun y hy => h y (by simp [hy]))]
    rfl

theorem bestMatch_self_keep {α : Type} [Inhabited α] (r : α → α → ℚ)
    (X : List α) (hrefl : ∀ x, r x x = 1) (hle : ∀ x y, r x y ≤ 1) (i : ℕ) :
    bestMatch r X X i i =
      ⟨.equal, i, i, r (X.getD i default) (X.getD i default)⟩ := by
  unfold bestMatch lookI lookJ
  set b0 : Best := ⟨.equal, i, i, r (X.getD i default) (X.getD i default)⟩
    with hb0
  apply foldl_inv (P := fun c => c = b0)
  · apply foldl_inv (P := fun c => c = b0)
    · rfl
    · intro c x _ hc
      subst hc
      unfold probeJ
      rw [if_neg]
      rintro ⟨h1, -⟩
      have h2 : r (X.getD i default) (X.getD (i + x) default) ≤ 1 := hle _ _
      have h3 : (1 : ℚ) < r (X.getD i default) (X.getD (i + x) default) := by
        rw [← hrefl (X.getD i default)]
        exact h1
      exact absurd h3 (not_lt.mpr h2)
  · intro c x _ hc
    subst hc
    unfold probeI
    rw [if_neg]
    rintro ⟨h1, -⟩
    have h2 : r (X.getD (i + x) default) (X.getD i default) ≤ 1 := hle _ _
    have h3 : (1 : ℚ) < r (X.getD (i + x) default) (X.getD i default) := by
      rw [← hrefl (X.getD i default)]
      exact h1
    exact absurd h3 (not_lt.mpr h2)

theorem alignLoopF_self {α : Type} [Inhabited α] (r : α → α → ℚ) (X : List α)
    (hrefl : ∀ x, r x x = 1) (hle : ∀ x y, r x y ≤ 1) :
    ∀ (fuel i : ℕ), X.length - i < fuel → i ≤ X.length →
      alignLoopF r X X fuel i i =
        (List.range' i (X.length - i)).map
          (fun t => ⟨.equal, t, t + 1, t, t + 1⟩) := by
  intro fuel
  induction fuel with
  | zero => intro i hm _; exact absurd hm (Nat.not_lt_zero _)
  | succ n ih =>
    intro i hm hi
    simp only [alignLoopF]
    by_cases hlt : i < X.length
    · rw [if_pos (Or.inl hlt), if_neg (by omega), if_neg (by omega)]
      rw [bestMatch_self_keep r X hrefl hle i]
      rw [if_neg (by simp), if_neg (by simp)]
      rw [if_pos (by
        rw [hrefl (X.getD i default), SIMILARITY_THRESHOLD_eq]
        norm_num)]
      rw [ih (i + 1) (by omega) (by omega)]
      rw [show X.length - i = (X.length - (i + 1)) + 1 by omega,
        List.range'_succ, List.map_cons]
    · rw [if_neg (by omega)]
      rw [show X.length - i = 0 by omega]
      rfl

theorem opResults_pair_form (op : AlignOp)
    (h : op.tag = .equal ∨ op.tag = .replace) :
    opResults op = (List.range (max (op.i2 - op.i1) (op.j2 - op.j1))).map
      (fun k =>
        if op.i1 + k < op.i2 then
          if op.j1 + k < op.j2 then
            .pair (op.i1 + k) (op.j1 + k) (decide (op.i1 + k ≠ op.j1 + k))
          else .onlyA (op.i1 + k)
        else .onlyB (op.j1 + k)) := by
  have hbody : opResults op =
      (List.range (max (op.i2 - op.i1) (op.j2 - op.j1))).flatMap fun k =>
        match (if op.i1 + k < op.i2 then some (op.i1 + k) else none),
            (if op.j1 + k < op.j2 then some (op.j1 + k) else none) with
        | some a, some b => [.pair a b (decide (a ≠ b))]
        | none, some b => [.onlyB b]
        | some a, none => [.onlyA a]
        | none, none => [] := by
    rcases h with h | h <;> · unfold opResults; rw [h]
  rw [hbody]
  apply flatMap_singleton_eq_map
  intro k hk
  rw [List.mem_range] at hk
  by_cases h1 : op.i1 + k < op.i2
  · by_cases h2 : op.j1 + k < op.j2
    · simp only [if_pos h1, if_pos h2]
    · simp only [if_pos h1, if_neg h2]
  · have h2 : op.j1 + k < op.j2 := by omega
    simp only [if_neg h1, if_pos h2]

theorem opResults_delete_form (op : AlignOp) (h : op.tag = .delete) :
    opResults op =
      (List.range (op.i2 - op.i1)).map (fun k => .onlyA (op.i1 + k)) := by
  unfold opResults
  rw [h]
  dsimp only
  rw [List.range'_eq_map_range, List.map_map]
  rfl

theorem opResults_insert_form (op : AlignOp) (h : op.tag = .insert) :
    opResults op =
      (List.range (op.j2 - op.j1)).map (fun k => .onlyB (op.j1 + k)) := by
  unfold opResults
  rw [h]
  dsimp only
  rw [List.range'_eq_map_range, List.map_map]
  rfl

theorem planResults_append (ops1 ops2 : List AlignOp) :
    planResults (ops1 ++ ops2) = planResults ops1 ++ planResults ops2 := by
  unfold planResults
  rw [List.flatMap_append]

/-! ## Claims -/

set_option maxRecDepth 10000

/-- C1: for every pair of input page-text sequences (under any
page-similarity function, in particular the source's), the `a_range`s of
the plan returned by `align_pages`, in emission order, are contiguous and
increasing and cover `[0, len A)` exactly once — each index of A lies in
exactly one `a_range` — and likewise the `b_range`s cover `[0, len B)`. -/
theorem alignPages_coverage_invariant {α : Type} [Inhabited α]
    (r : α → α → ℚ) (ta tb : List α) :
    covers 0 ta.length (aRanges (alignPages r ta tb)) ∧
    covers 0 tb.length (bRanges (alignPages r ta tb)) ∧
    (∀ x, x < ta.length →
      (aRanges (alignPages r ta tb)).countP
        (fun p => decide (p.1 ≤ x ∧ x < p.2)) = 1) ∧
    (∀ x, x < tb.length →
      (bRanges (alignPages r ta tb)).countP
        (fun p => decide (p.1 ≤ x ∧ x < p.2)) = 1) := by
  have h := alignLoopF_covers r ta tb (ta.length + tb.length + 1) 0 0
    (by omega) (by omega) (by omega)
  refine ⟨h.1, h.2, ?_, ?_⟩
  · intro x hx
    exact covers_countP _ 0 ta.length x h.1 (by omega) hx
  · intro x hx
    exact covers_countP _ 0 tb.length x h.2 (by omega) hx

/-- Witness for C1 at a concrete input: page 0 of A is covered by exactly
one `a_range` of `align_pages([[1],[2]], [[3]])`. -/
theorem alignPages_coverage_invariant_witness :
    ((0 : ℕ) < ([[1], [2]] : List (List ℕ)).length) ∧
    (aRanges (alignPages (similarity : List ℕ → List ℕ → ℚ)
        [[1], [2]] [[3]])).countP
      (fun p => decide (p.1 ≤ 0 ∧ 0 < p.2)) = 1 :=
  ⟨by decide,
    (alignPages_coverage_invariant similarity [[1], [2]] [[3]]).2.2.1 0 (by decide)⟩

/-- C2 (amended): `align(X, X)` for non-empty `X` — under any similarity
function with `r x x = 1` and `r ≤ 1`, as the source's ratio satisfies —
returns one unit-width `Equal` op **per page**, `Equal(k, k+1, k, k+1)`
for each `k < len X`, not a single spanning `Equal` op. -/
theorem alignPages_self_unit_equal_ops {α : Type} [Inhabited α]
    (r : α → α → ℚ) (X : List α) (hne : X ≠ [])
    (hrefl : ∀ x, r x x = 1) (hle : ∀ x y, r x y ≤ 1) :
    alignPages r X X =
      (List.range X.length).map (fun k => ⟨.equal, k, k + 1, k, k + 1⟩) := by
  unfold alignPages
  rw [alignLoopF_self r X hrefl hle (X.length + X.length + 1) 0
    (by omega) (by omega)]
  rw [Nat.sub_zero, List.range_eq_range']

/-- Witness for C2 (amended) at a concrete two-page document. -/
theorem alignPages_self_unit_equal_ops_witness :
    ([[0], [1]] : List (List ℕ)) ≠ [] ∧
    alignPages (similarity : List ℕ → List ℕ → ℚ) [[0], [1]] [[0], [1]] =
      (List.range ([[0], [1]] : List (List ℕ)).length).map
        (fun k => ⟨.equal, k, k + 1, k, k + 1⟩) :=
  ⟨by decide,
    alignPages_self_unit_equal_ops similarity [[0], [1]] (by decide)
      (fun x => similarity_self x) (fun x y => similarity_le_one x y)⟩

/-- Counterexample for C2 as stated: aligning the two-page document
`[[0], [1]]` with itself yields two unit `Equal` ops, not the single
spanning op `Equal(0, 2, 0, 2)` the claim asserts. -/
theorem alignPages_self_two_ops_cex :
    alignPages (similarity : List ℕ → List ℕ → ℚ) [[0], [1]] [[0], [1]] =
      [⟨.equal, 0, 1, 0, 1⟩, ⟨.equal, 1, 2, 1, 2⟩] ∧
    alignPages (similarity : List ℕ → List ℕ → ℚ) [[0], [1]] [[0], [1]] ≠
      [⟨.equal, 0, 2, 0, 2⟩] := by decide

/-- C3 (amended): the similarity ratio always lies in `[0, 1]` and equals
`1` on any sequence against itself (including the empty sequence); the
symmetry part of the claim is false (`similarity_asymmetric_cex`). -/
theorem similarity_bounds_and_reflexivity {β : Type} [DecidableEq β]
    (a b : List β) :
    0 ≤ similarity a b ∧ similarity a b ≤ 1 ∧ similarity a a = 1 :=
  ⟨similarity_nonneg a b, similarity_le_one a b, similarity_self a⟩

/-- Counterexample for C3's symmetry: on the token lists for
`"tide"` (`[0,1,2,3]` standing for t,i,d,e) and `"diet"` (`[2,1,3,0]`),
the ratio is `1/4` one way and `1/2` the other — the leftmost-longest
tie-break matches t against the trailing t and strands "ide". -/
theorem similarity_asymmetric_cex :
    similarity ([0, 1, 2, 3] : List ℕ) [2, 1, 3, 0] = 1 / 4 ∧
    similarity ([2, 1, 3, 0] : List ℕ) [0, 1, 2, 3] = 1 / 2 ∧
    similarity ([0, 1, 2, 3] : List ℕ) [2, 1, 3, 0] ≠
      similarity ([2, 1, 3, 0] : List ℕ) [0, 1, 2, 3] := by
  have h1 : similarity ([0, 1, 2, 3] : List ℕ) [2, 1, 3, 0] = mkRat 1 4 := by
    decide
  have h2 : similarity ([2, 1, 3, 0] : List ℕ) [0, 1, 2, 3] = mkRat 1 2 := by
    decide
  rw [h1, h2, Rat.mkRat_eq_div, Rat.mkRat_eq_div]
  norm_num

/-- C4 (amended): the lookahead probes exactly the offsets `k` with
`1 ≤ k < min(3, len - cursor)` — i.e. at most offsets 1 and 2; offset
`LOOKAHEAD_WINDOW = 3` itself is never probed, because Python's
`range(1, min(3, len - cursor))` excludes its upper end — and a probe is
tracked only when its ratio strictly exceeds both the best similarity so
far and the threshold. -/
theorem lookahead_probed_offsets {α : Type} [Inhabited α] (r : α → α → ℚ)
    (ta tb : List α) (i j : ℕ) :
    (∀ k, k ∈ probedOffsets j tb.length ↔
      1 ≤ k ∧ k < min LOOKAHEAD_WINDOW (tb.length - j)) ∧
    (∀ k, k ∈ probedOffsets i ta.length ↔
      1 ≤ k ∧ k < min LOOKAHEAD_WINDOW (ta.length - i)) ∧
    LOOKAHEAD_WINDOW ∉ probedOffsets j tb.length ∧
    (∀ (b : Best) (k : ℕ), probeJ r ta tb i j b k ≠ b →
      r (ta.getD i default) (tb.getD (j + k) default) > b.sim ∧
      r (ta.getD i default) (tb.getD (j + k) default) > SIMILARITY_THRESHOLD) ∧
    (∀ (b : Best) (k : ℕ), probeI r ta tb i j b k ≠ b →
      r (ta.getD (i + k) default) (tb.getD j default) > b.sim ∧
      r (ta.getD (i + k) default) (tb.getD j default) > SIMILARITY_THRESHOLD) := by
  refine ⟨fun k => probedOffsets_iff, fun k => probedOffsets_iff, ?_, ?_, ?_⟩
  · intro h
    have h2 := (probedOffsets_iff.mp h).2
    unfold LOOKAHEAD_WINDOW at h2
    omega
  · intro b k hne
    by_cases hc : r (ta.getD i default) (tb.getD (j + k) default) > b.sim ∧
        r (ta.getD i default) (tb.getD (j + k) default) > SIMILARITY_THRESHOLD
    · exact hc
    · unfold probeJ at hne
      rw [if_neg hc] at hne
      exact absurd rfl hne
  · intro b k hne
    by_cases hc : r (ta.getD (i + k) default) (tb.getD j default) > b.sim ∧
        r (ta.getD (i + k) default) (tb.getD j default) > SIMILARITY_THRESHOLD
    · exact hc
    · unfold probeI at hne
      rw [if_neg hc] at hne
      exact absurd rfl hne

/-- Witness for C4 (amended): offset 2 is probed when 4 pages remain, and
a concrete tracked probe did strictly exceed the running best and the
threshold. -/
theorem lookahead_probed_offsets_witness :
    (2 ∈ probedOffsets 0 ([[1], [2], [3], [4]] : List (List ℕ)).length ↔
      1 ≤ 2 ∧
        2 < min LOOKAHEAD_WINDOW
          (([[1], [2], [3], [4]] : List (List ℕ)).length - 0)) ∧
    (probeJ (similarity : List ℕ → List ℕ → ℚ) [[7]] [[5], [7]] 0 0
        ⟨.equal, 0, 0, 0⟩ 1 ≠ ⟨.equal, 0, 0, 0⟩) ∧
    similarity (([[7]] : List (List ℕ)).getD 0 [])
        (([[5], [7]] : List (List ℕ)).getD (0 + 1) []) >
      (⟨.equal, 0, 0, 0⟩ : Best).sim ∧
    similarity (([[7]] : List (List ℕ)).getD 0 [])
        (([[5], [7]] : List (List ℕ)).getD (0 + 1) []) >
      SIMILARITY_THRESHOLD := by
  have h := (lookahead_probed_offsets (similarity : List ℕ → List ℕ → ℚ)
    [[7]] [[5], [7]] 0 0).2.2.2.1 ⟨.equal, 0, 0, 0⟩ 1 (by decide)
  exact ⟨(lookahead_probed_offsets (similarity : List ℕ → List ℕ → ℚ)
    [] [[1], [2], [3], [4]] 0 0).1 2, by decide, h.1, h.2⟩

/-- Counterexample for C4 as stated: with 4 pages of B remaining past the
cursor, only offsets 1 and 2 are probed — offset 3 is not — so the
perfect match of `A[0]` at `B[3]` (ratio 1, above the 0.6 threshold) is
missed and `align_pages([[9]], [[1],[2],[3],[9]])` emits a Replace
followed by a terminal Insert instead of skipping to that match. -/
theorem lookahead_window_cex :
    3 ∉ probedOffsets 0 4 ∧ probedOffsets 0 4 = [1, 2] ∧
    similarity ([9] : List ℕ) [9] = 1 ∧ SIMILARITY_THRESHOLD < 1 ∧
    alignPages (similarity : List ℕ → List ℕ → ℚ) [[9]] [[1], [2], [3], [9]] =
      [⟨.replace, 0, 1, 0, 1⟩, ⟨.insert, 1, 1, 1, 4⟩] := by decide

/-- C5 (amended): with an `insert` candidate selected as best so far, the
delete lookahead replaces it only when some delete probe **strictly**
exceeds that candidate's similarity (and the threshold); when every
delete probe ties or does worse, the Insert candidate is kept.  Ties
prefer Insert, not Delete. -/
theorem insert_delete_tie_break {α : Type} [Inhabited α] (r : α → α → ℚ)
    (ta tb : List α) (i j : ℕ) (b : Best) (hb : b.btype = .insert) :
    ((∀ k ∈ probedOffsets i ta.length,
        ¬(r (ta.getD (i + k) default) (tb.getD j default) > b.sim ∧
          r (ta.getD (i + k) default) (tb.getD j default) >
            SIMILARITY_THRESHOLD)) →
      lookI r ta tb i j b = b) ∧
    ((∃ k ∈ probedOffsets i ta.length,
        r (ta.getD (i + k) default) (tb.getD j default) > b.sim ∧
        r (ta.getD (i + k) default) (tb.getD j default) >
          SIMILARITY_THRESHOLD) →
      (lookI r ta tb i j b).btype = .delete) :=
  ⟨fun h => lookI_keep r ta tb i j b h,
    fun h => lookI_delete_of_probe r ta tb i j b h⟩

/-- Witness for C5 (amended): with no qualifying delete probe, the
Insert candidate is kept unchanged. -/
theorem insert_delete_tie_break_witness :
    (⟨.insert, 0, 0, 0⟩ : Best).btype = .insert ∧
    lookI (similarity : List ℕ → List ℕ → ℚ) [] [] 0 0 ⟨.insert, 0, 0, 0⟩ =
      ⟨.insert, 0, 0, 0⟩ :=
  ⟨rfl, (insert_delete_tie_break similarity [] [] 0 0 _ rfl).1 (by decide)⟩

/-- Counterexample for C5 as stated: with pages `p = [1,1,1]`,
`q = [2,2,2]`, `c = [1,1,1,2,2,2]` and documents `A = [p, c]`,
`B = [q, c]`, both lookaheads at step `(0,0)` qualify with the **equal**
similarity `2/3` (current is 0): the claim says the Delete candidate is
taken, but `best_match` is the Insert candidate and the plan's first
operation is `Insert(0,0,0,1)`, not a Delete. -/
theorem tie_prefers_insert_cex :
    similarity ([1, 1, 1] : List ℕ) [1, 1, 1, 2, 2, 2] = mkRat 2 3 ∧
    similarity ([1, 1, 1, 2, 2, 2] : List ℕ) [2, 2, 2] = mkRat 2 3 ∧
    similarity ([1, 1, 1] : List ℕ) [2, 2, 2] = 0 ∧
    SIMILARITY_THRESHOLD < mkRat 2 3 ∧
    bestMatch (similarity : List ℕ → List ℕ → ℚ)
        [[1, 1, 1], [1, 1, 1, 2, 2, 2]] [[2, 2, 2], [1, 1, 1, 2, 2, 2]] 0 0 =
      ⟨.insert, 0, 1, mkRat 2 3⟩ ∧
    alignPages (similarity : List ℕ → List ℕ → ℚ)
        [[1, 1, 1], [1, 1, 1, 2, 2, 2]] [[2, 2, 2], [1, 1, 1, 2, 2, 2]] =
      [⟨.insert, 0, 0, 0, 1⟩, ⟨.delete, 0, 1, 1, 1⟩, ⟨.equal, 1, 2, 1, 2⟩] := by
  decide

/-- C6: `align([], B)` for non-empty B is exactly
`[Insert(0, 0, 0, len B)]`; `align(A, [])` for non-empty A is exactly
`[Delete(0, len A, 0, 0)]`; `align([], [])` is the empty plan. -/
theorem alignPages_empty_inputs {α : Type} [Inhabited α] (r : α → α → ℚ)
    (A B : List α) :
    (B ≠ [] → alignPages r [] B = [⟨.insert, 0, 0, 0, B.length⟩]) ∧
    (A ≠ [] → alignPages r A [] = [⟨.delete, 0, A.length, 0, 0⟩]) ∧
    alignPages r ([] : List α) [] = [] := by
  refine ⟨?_, ?_, rfl⟩
  · intro hB
    unfold alignPages
    simp only [alignLoopF]
    rw [if_pos (Or.inr (by simpa [List.length_pos] using hB))]
    rw [if_pos (by simp)]
  · intro hA
    unfold alignPages
    simp only [alignLoopF]
    rw [if_pos (Or.inl (by simpa [List.length_pos] using hA))]
    rw [if_neg (by simp [List.length_pos, hA]), if_pos (by simp)]

/-- Witness for C6 at concrete one-page documents. -/
theorem alignPages_empty_inputs_witness :
    ([[5]] : List (List ℕ)) ≠ [] ∧
    alignPages (similarity : List ℕ → List ℕ → ℚ) [] [[5]] =
      [⟨.insert, 0, 0, 0, ([[5]] : List (List ℕ)).length⟩] ∧
    alignPages (similarity : List ℕ → List ℕ → ℚ) [[5]] [] =
      [⟨.delete, 0, ([[5]] : List (List ℕ)).length, 0, 0⟩] :=
  ⟨by decide,
    (alignPages_empty_inputs similarity [[5]] [[5]]).1 (by decide),
    (alignPages_empty_inputs similarity [[5]] [[5]]).2.1 (by decide)⟩

/-- C7: the report planner emits, for each Equal/Replace op, exactly
`max(len a_range, len b_range)` results where result `k` pairs
`idx_a = a_range.start + k` when that is below `a_range.end` (else the
page exists only on the other side), `idx_b` symmetrically, with
`shifted = (idx_a ≠ idx_b)`; for each Delete (resp. Insert) op, one
singleton result per index of its `a_range` (resp. `b_range`) in
ascending order; and results follow AlignmentPlan order. -/
theorem report_emission_per_op (ops1 ops2 : List AlignOp) (op : AlignOp) :
    planResults (ops1 ++ ops2) = planResults ops1 ++ planResults ops2 ∧
    (op.tag = .equal ∨ op.tag = .replace →
      opResults op = (List.range (max (op.i2 - op.i1) (op.j2 - op.j1))).map
        (fun k =>
          if op.i1 + k < op.i2 then
            if op.j1 + k < op.j2 then
              .pair (op.i1 + k) (op.j1 + k) (decide (op.i1 + k ≠ op.j1 + k))
            else .onlyA (op.i1 + k)
          else .onlyB (op.j1 + k)) ∧
      (opResults op).length = max (op.i2 - op.i1) (op.j2 - op.j1)) ∧
    (op.tag = .delete →
      opResults op =
        (List.range (op.i2 - op.i1)).map (fun k => .onlyA (op.i1 + k))) ∧
    (op.tag = .insert →
      opResults op =
        (List.range (op.j2 - op.j1)).map (fun k => .onlyB (op.j1 + k))) := by
  refine ⟨planResults_append ops1 ops2, fun h => ?_,
    opResults_delete_form op, opResults_insert_form op⟩
  have hform := opResults_pair_form op h
  refine ⟨hform, ?_⟩
  rw [hform, List.length_map, List.length_range]

/-- Witness for C7 at a concrete Equal op with a longer `a_range`:
`Equal(1,3,1,2)` emits `max(2,1) = 2` results — the pair `(1,1)` then the
A-only page 2. -/
theorem report_emission_per_op_witness :
    ((⟨.equal, 1, 3, 1, 2⟩ : AlignOp).tag = .equal ∨
      (⟨.equal, 1, 3, 1, 2⟩ : AlignOp).tag = .replace) ∧
    opResults ⟨.equal, 1, 3, 1, 2⟩ = [.pair 1 1 false, .onlyA 2] ∧
    (opResults ⟨.equal, 1, 3, 1, 2⟩).length = 2 := by
  have h := (report_emission_per_op [] [] ⟨.equal, 1, 3, 1, 2⟩).2.1 (Or.inl rfl)
  exact ⟨Or.inl rfl, by rw [h.1]; decide, by rw [h.2]; decide⟩

/-- C8: on `text_a = ["alpha content", "beta content"]` and
`text_b = ["alpha content", "new page", "beta content"]` (pages as their
character lists), the plan contains `Insert(1,1,1,2)` covering exactly
index 1 of B, and the report pairs the "beta content" pages as
`idx_a = 1`, `idx_b = 2` with `shifted = (idx_a ≠ idx_b) = true` (while
the unshifted first pair has `shifted = false`). -/
theorem scenario_shift_detection :
    alignPages (similarity : List Char → List Char → ℚ)
        ["alpha content".toList, "beta content".toList]
        ["alpha content".toList, "new page".toList, "beta content".toList] =
      [⟨.equal, 0, 1, 0, 1⟩, ⟨.insert, 1, 1, 1, 2⟩, ⟨.equal, 1, 2, 2, 3⟩] ∧
    planResults
        [⟨.equal, 0, 1, 0, 1⟩, ⟨.insert, 1, 1, 1, 2⟩, ⟨.equal, 1, 2, 2, 3⟩] =
      [.pair 0 0 false, .onlyB 1, .pair 1 2 true] ∧
    decide ((1 : ℕ) ≠ 2) = true ∧ decide ((0 : ℕ) ≠ 0) = false := by decide

/-- C9: the coordinate mapping sends each corner independently to
`x*scale_x + offset_x`, `y*scale_y + offset_y`; it transforms malformed
boxes (`x1 < x0` or `y1 < y0`) by the same formula without rejection; and
two maps compose into one with pointwise-product scales and offsets
`o1*s2 + o2`. -/
theorem mapBBox_affine_and_composition (b : BBox)
    (sx sy ox oy s2x s2y o2x o2y : ℚ) :
    mapBBox b sx sy ox oy =
      ⟨b.x0 * sx + ox, b.y0 * sy + oy, b.x1 * sx + ox, b.y1 * sy + oy⟩ ∧
    (b.x1 < b.x0 ∨ b.y1 < b.y0 →
      mapBBox b sx sy ox oy =
        ⟨b.x0 * sx + ox, b.y0 * sy + oy, b.x1 * sx + ox, b.y1 * sy + oy⟩) ∧
    mapBBox (mapBBox b sx sy ox oy) s2x s2y o2x o2y =
      mapBBox b (sx * s2x) (sy * s2y) (ox * s2x + o2x) (oy * s2y + o2y) := by
  refine ⟨rfl, fun _ => rfl, ?_⟩
  unfold mapBBox
  simp only [BBox.mk.injEq]
  refine ⟨by ring, by ring, by ring, by ring⟩

/-- Witness for C9 at a concrete malformed box (`x1 = 1 < 3 = x0`): it is
mapped by the same affine formula, not rejected. -/
theorem mapBBox_affine_witness :
    ((⟨3, 0, 1, 2⟩ : BBox).x1 < (⟨3, 0, 1, 2⟩ : BBox).x0 ∨
      (⟨3, 0, 1, 2⟩ : BBox).y1 < (⟨3, 0, 1, 2⟩ : BBox).y0) ∧
    mapBBox ⟨3, 0, 1, 2⟩ 2 2 5 7 =
      ⟨(3 : ℚ) * 2 + 5, 0 * 2 + 7, 1 * 2 + 5, 2 * 2 + 7⟩ := by
  have h := (mapBBox_affine_and_composition ⟨3, 0, 1, 2⟩ 2 2 5 7 1 1 0 0).2.1
    (Or.inl (by norm_num))
  exact ⟨Or.inl (by norm_num), h⟩

/-- C10: `align_pages` terminates on all finite inputs — any fuel above
the loop measure yields the same plan as `alignPages` — and the loop
executes at most `len A + len B` iterations: since every iteration
appends exactly one operation, the plan has at most `len A + len B`
operations. -/
theorem alignPages_terminates_bounded {α : Type} [Inhabited α]
    (r : α → α → ℚ) (ta tb : List α) :
    (∀ fuel, ta.length + tb.length < fuel →
      alignLoopF r ta tb fuel 0 0 = alignPages r ta tb) ∧
    (alignPages r ta tb).length ≤ ta.length + tb.length := by
  constructor
  · intro fuel hf
    unfold alignPages
    exact alignLoopF_fuel_stable r ta tb fuel (ta.length + tb.length + 1) 0 0
      (by omega) (by omega)
  · have h := alignLoopF_length r ta tb (ta.length + tb.length + 1) 0 0 (by omega)
    unfold alignPages
    omega

/-- Witness for C10: extra fuel does not change the plan at a concrete
input, whose plan length is within the bound. -/
theorem alignPages_terminates_bounded_witness :
    (([[1]] : List (List ℕ)).length + ([] : List (List ℕ)).length < 5) ∧
    alignLoopF (similarity : List ℕ → List ℕ → ℚ) [[1]] [] 5 0 0 =
      alignPages (similarity : List ℕ → List ℕ → ℚ) [[1]] [] :=
  ⟨by decide, (alignPages_terminates_bounded similarity [[1]] []).1 5 (by decide)⟩

end PyPdfCompare
